import Mathlib

/-
Verification of the vmkteam/cron manager (cron.go, middleware.go, state.go)
against its specification. The Go code is shallowly embedded: the per-task
state machine (updateState), job validation (validateJobs), activation (Run),
the manual trigger (ManualRun), the snapshot (State), the duplicate-run guard
(WithSkipActive) and the maintenance gate (WithMaintenance) become executable
Lean definitions; wall-clock instants and durations are integers; Go errors
become an inductive type with explicit wrapping so that errors.Is is
structural chain matching.
-/

namespace VmkCron

/-- Model of the Go error values used by the package. `errSkipped`,
`errNotFound` and `errDuplicate` are the three sentinels created with
errors.New in cron.go; `parseErr s` stands for the error the external
scheduler's ParseStandard returns on the non-parsing expression `s`;
`msg` is any other leaf error a business function may produce; `wrap note
inner` is an error built with fmt.Errorf("...: %w", inner), whose Unwrap
yields `inner`. -/
inductive GoError where
  | errSkipped : GoError
  | errNotFound : GoError
  | errDuplicate : GoError
  | parseErr (sched : String) : GoError
  | msg (s : String) : GoError
  | wrap (note : String) (inner : GoError) : GoError
deriving DecidableEq, Repr

/-- Model of Go errors.Is(e, t): return true if e == t, else unwrap and
retry; only `wrap` values unwrap. In this package `t` is always one of the
three sentinels, which are modelled as atoms, so structural equality on the
non-wrap constructors coincides with Go pointer identity of the sentinels. -/
def errorIs : GoError → GoError → Bool
  | .wrap note inner, t => (GoError.wrap note inner == t) || errorIs inner t
  | e, t => e == t

/-- Model of errors.Is for a nullable error (Go nil error is `none`);
errors.Is(nil, ErrSkipped) is false. -/
def optErrorIs (e : Option GoError) (t : GoError) : Bool :=
  match e with
  | some x => errorIs x t
  | none => false

/-- The four task phases of cron.go (stateIdle, stateDisabled, stateRunning,
stateSkipped). -/
inductive CronState where
  | idle : CronState
  | disabled : CronState
  | running : CronState
  | skipped : CronState
deriving DecidableEq, Repr

/-- Model of the jobState struct of cron.go: current phase, last error,
last update instant and last recorded duration. Instants and durations are
integers (Go time.Time / time.Duration). -/
structure JobState where
  state : CronState
  err : Option GoError
  updatedAt : Int
  duration : Int
deriving DecidableEq, Repr

/-- Model of Manager.updateState (cron.go lines 193-215), the single
synchronized writer of a job's state record. It copies the last record,
sets duration to now - updatedAt when the previous phase is `running` and
the requested phase is `idle`, then stores the requested phase, the error
and the current instant, and finally — when the error matches ErrSkipped
under errors.Is — overrides the stored phase/error with `skipped`/nil.
The single `now` argument stands for both the time.Since instant and the
time.Now() instant, which the mutex-protected body reads back to back. -/
def updateStateCore (last : JobState) (st : CronState) (err : Option GoError) (now : Int) : JobState :=
  let d : Int := if last.state = .running ∧ st = .idle then now - last.updatedAt else last.duration
  if optErrorIs err .errSkipped then
    ⟨.skipped, none, now, d⟩
  else
    ⟨st, err, now, d⟩

/-- Model of Schedule.IsActive of cron.go: a schedule is active iff it is
neither "disabled" (the stateDisabled sentinel) nor empty. -/
def scheduleIsActive (s : String) : Bool := s ≠ "disabled" && s ≠ ""

/-- ASCII lowercasing of one character, the fragment of Go's unicode
lowercasing exercised by this package's task names. -/
def lowerChar (c : Char) : Char :=
  if 'A' ≤ c ∧ c ≤ 'Z' then Char.ofNat (c.toNat + 32) else c

/-- Model of strings.ToLower (ASCII-adequate), used by validateJobs for the
case-insensitive uniqueness check. -/
def strLower (s : String) : String := ⟨s.data.map lowerChar⟩

/-- Model of strings.EqualFold as used by ManualRun (ASCII-adequate
case-insensitive equality). -/
def eqFold (a b : String) : Bool := strLower a == strLower b

/-- Model of the job struct of cron.go. The business function `fn` itself is
not part of the state model (functions carry no decidable state); `cronFn`
records whether Run has bound the pipeline closure for this job — `none` is
Go's nil Func (never assigned), `some k` is the closure bound for the job
at registration index k. -/
structure Job where
  id : Int
  name : String
  schedule : String
  isMaintenance : Bool
  cronFn : Option Nat
  last : JobState
deriving DecidableEq, Repr

/-- Model of newJob of cron.go: zero-valued id, nil cronFn, phase idle. -/
def newJob (name sched : String) (isMaintenance : Bool) : Job :=
  ⟨0, name, sched, isMaintenance, none, ⟨.idle, none, 0, 0⟩⟩

/-- One entry of the external robfig/cron scheduler: its EntryID and its
reported previous and next fire instants. -/
structure Entry where
  id : Int
  prev : Int
  next : Int
deriving DecidableEq, Repr

/-- Modelled from the spec: the external robfig/cron scheduler state, out of
this repository's source. Per the spec's collaborator contract it hands out
entry identifiers on registration (real identifiers are positive, starting
at 1, which is what the "negative synthetic identifier to avoid collision"
convention presupposes), lists its entries, and is started once. -/
structure CronSched where
  nextID : Int
  entries : List Entry
  started : Bool
deriving DecidableEq, Repr

/-- A freshly constructed scheduler, as cron.New() used by NewManager:
no entries, not started, next identifier 1. -/
def freshSched : CronSched := ⟨1, [], false⟩

/-- Modelled from the spec: cron.AddFunc of the external scheduler —
register an entry and return its fresh identifier. Fire times are reported
by the scheduler later; they start zero here and are quantified over where
a claim needs them. Parse failure is handled by the caller (runRegister)
before this is reached or modelled as the error branch there. -/
def cronAddFunc (c : CronSched) : Int × CronSched :=
  (c.nextID, ⟨c.nextID + 1, c.entries ++ [⟨c.nextID, 0, 0⟩], c.started⟩)

/-- Model of the Manager struct of cron.go: the job list and the external
scheduler handle. The middleware list holds functions and is modelled
separately by `composeMw` (chain composition is the only thing Run does
with it). -/
structure Manager where
  jobs : List Job
  cron : CronSched
deriving DecidableEq, Repr

/-- Model of NewManager followed by the AddFunc / AddMaintenanceFunc calls
for `regs` in order: each registration appends newJob(name, schedule, fn,
isMaintenance). -/
def mkManager (regs : List (String × String × Bool)) : Manager :=
  ⟨regs.map (fun r => newJob r.1 r.2.1 r.2.2), freshSched⟩

/-- Recursive worker of validateJobs with the accumulated set of lowercased
names seen so far (the Go `names` map, modelled as a list). For each job in
order: if its lowercased name was seen, return (job.name, ErrDuplicate);
record the lowercased name; if the schedule is active and does not parse,
return (job.name, the parse error); otherwise continue. The external
parser is the parameter `parseOk`. -/
def validateJobsGo (parseOk : String → Bool) : List Job → List String → String × Option GoError
  | [], _ => ("", none)
  | j :: rest, names =>
    if (strLower j.name) ∈ names then (j.name, some .errDuplicate)
    else if scheduleIsActive j.schedule && !parseOk j.schedule then (j.name, some (.parseErr j.schedule))
    else validateJobsGo parseOk rest ((strLower j.name) :: names)

/-- Model of Manager.validateJobs (cron.go lines 97-116): returns ("", nil)
on success, else the offending job's name (original casing) and the error. -/
def validateJobs (parseOk : String → Bool) (jobs : List Job) : String × Option GoError :=
  validateJobsGo parseOk jobs []

/-- Model of the registration loop of Manager.Run (cron.go lines 137-176),
processing jobs from registration index `idx`: an inactive schedule gets the
fake id idx * -1 and phase `disabled` without touching the scheduler
(updateID then updateState(idx, stateDisabled, nil)); an active schedule is
registered with cron.AddFunc — whose only failure mode is the parse error —
receiving the scheduler's fresh id; an AddFunc failure returns immediately,
leaving the remaining jobs untouched. Returns the updated job list, the
scheduler state and the error, if any. -/
def runRegister (parseOk : String → Bool) (now : Int) : List Job → Nat → CronSched → List Job × CronSched × Option GoError
  | [], _, c => ([], c, none)
  | j :: rest, idx, c =>
    if scheduleIsActive j.schedule then
      if parseOk j.schedule then
        let p := cronAddFunc c
        let j1 : Job := ⟨p.1, j.name, j.schedule, j.isMaintenance, some idx, j.last⟩
        let r := runRegister parseOk now rest (idx + 1) p.2
        (j1 :: r.1, r.2.1, r.2.2)
      else
        (j :: rest, c, some (.wrap j.name (.parseErr j.schedule)))
    else
      let j1 : Job := ⟨-(idx : Int), j.name, j.schedule, j.isMaintenance, some idx,
        updateStateCore j.last .disabled none now⟩
      let r := runRegister parseOk now rest (idx + 1) c
      (j1 :: r.1, r.2.1, r.2.2)

/-- Model of Manager.Run (cron.go lines 130-181): validate — failure is
signalled by a non-empty offending name, exactly as the Go code tests it —
then register every job, then start the scheduler. Returns the resulting
manager state (Run mutates the receiver in place, so partial effects
survive an error) and the returned error. -/
def runManager (parseOk : String → Bool) (now : Int) (cm : Manager) : Manager × Option GoError :=
  let v := validateJobs parseOk cm.jobs
  if v.1 ≠ "" then
    (cm, some (.wrap v.1 (v.2.getD .errDuplicate)))
  else
    let r := runRegister parseOk now cm.jobs 0 cm.cron
    match r.2.2 with
    | some e => (⟨r.1, r.2.1⟩, some e)
    | none => (⟨r.1, ⟨r.2.1.nextID, r.2.1.entries, true⟩⟩, none)

/-- Outcome of the ManualRun loop: either no job's name folded-matched
(ErrNotFound), or the first matching job's cronFn is invoked — `invoke
none` is Go calling a nil function, a runtime fault, not an error return. -/
inductive ManualOutcome where
  | invoke (cronFn : Option Nat) : ManualOutcome
  | notFound : ManualOutcome
deriving DecidableEq, Repr

/-- Recursive worker of ManualRun: first job in registration order whose
name matches case-insensitively has its stored cronFn invoked. -/
def manualRunGo (id : String) : List Job → ManualOutcome
  | [] => .notFound
  | j :: rest => if eqFold j.name id then .invoke j.cronFn else manualRunGo id rest

/-- Model of Manager.ManualRun (cron.go lines 119-128). -/
def manualRun (cm : Manager) (id : String) : ManualOutcome :=
  manualRunGo id cm.jobs

/-- One record of the snapshot produced by Manager.State (state.go): the
job fields, its tracked state, and the scheduler-reported previous/next
fire instants (zero when the job's id has no scheduler entry). -/
structure StateRec where
  id : Int
  name : String
  schedule : String
  isMaintenance : Bool
  lastState : CronState
  lastErr : Option GoError
  lastDuration : Int
  lastUpdatedAt : Int
  lastRun : Int
  nextRun : Int
deriving DecidableEq, Repr

/-- Model of Manager.State (state.go): one record per job; the entry index
built from cron.Entries() is modelled by the first entry with a matching
id (scheduler entry ids are unique). LastRun/NextRun stay zero when the
lookup fails. -/
def stateSnapshot (cm : Manager) : List StateRec :=
  cm.jobs.map fun j =>
    match cm.cron.entries.find? (fun e => e.id == j.id) with
    | some e => ⟨j.id, j.name, j.schedule, j.isMaintenance, j.last.state, j.last.err,
        j.last.duration, j.last.updatedAt, e.prev, e.next⟩
    | none => ⟨j.id, j.name, j.schedule, j.isMaintenance, j.last.state, j.last.err,
        j.last.duration, j.last.updatedAt, 0, 0⟩

/-- What the call wrapped by the duplicate-run guard does when invoked:
returns an error (or nil), or propagates a panic. The guard's deferred
delete runs on both. -/
inductive Outcome where
  | ret (err : Option GoError) : Outcome
  | panicOut : Outcome
deriving DecidableEq, Repr

/-- Result of one pass through the WithSkipActive closure: what propagates
out of the guard, the active set after exit, and whether the wrapped
function was invoked. -/
structure GuardResult where
  res : Outcome
  finalActive : List String
  invoked : Bool
deriving DecidableEq, Repr

/-- Model of the WithSkipActive middleware body (middleware.go lines
219-247) for one invocation with task name `name`, given the shared active
set at entry and the wrapped call's behaviour `next`. Under the mutex: if
the name is in the set, return ErrSkipped without invoking next; otherwise
insert it, invoke next, and the deferred delete removes it on every exit
path — normal return and panic alike. The Go set is a map keyed by name,
modelled as a duplicate-free list; in the insert branch the name is not a
member, so cons followed by erase is exactly insert followed by delete. -/
def skipActiveGuard (active : List String) (name : String) (next : Outcome) : GuardResult :=
  if name ∈ active then
    ⟨.ret (some .errSkipped), active, false⟩
  else
    ⟨next, (name :: active).erase name, true⟩

/-- Events observed by the instrumented middleware chain: a middleware
unit's entry, its exit, or the business function running. -/
inductive Ev where
  | enter (i : Nat) : Ev
  | exit (i : Nat) : Ev
  | base : Ev
deriving DecidableEq, Repr

/-- Model of the middleware composition loop of Manager.Run (cron.go lines
144-147): f := fn; for i from len(ms)-1 down to 0, f = ms[i](f) — i.e. a
left fold of application over the reversed registration list. -/
def composeMw {α : Type} (ms : List (α → α)) (fn : α) : α :=
  ms.reverse.foldl (fun f m => m f) fn

/-- An instrumented middleware unit with tag i: appends its entry event,
runs the wrapped function, appends its exit event. -/
def traceMw (i : Nat) (next : List Ev → List Ev) : List Ev → List Ev :=
  fun tr => next (tr ++ [Ev.enter i]) ++ [Ev.exit i]

/-- An instrumented business function: appends the base event. -/
def baseFn : List Ev → List Ev := fun tr => tr ++ [Ev.base]

/-- State of the manager-wide sync.RWMutex inside WithMaintenance
(middleware.go lines 250-279): the name of the maintenance task holding the
exclusive lock, if any, and the names of the non-maintenance tasks holding
shared locks. A task's business function executes exactly while its gate
invocation holds the lock (the gate wraps the rest of the chain). -/
structure GateSt where
  writer : Option String
  readers : List String
deriving DecidableEq, Repr

/-- The RWMutex transitions WithMaintenance performs: RLock (non-maintenance
entry, enabled while no writer holds), RUnlock (non-maintenance exit), Lock
(maintenance entry, enabled only when no holder of either kind remains) and
Unlock (maintenance exit). -/
inductive GateStep : GateSt → GateSt → Prop where
  | rlock (rs : List String) (n : String) : GateStep ⟨none, rs⟩ ⟨none, n :: rs⟩
  | runlock (w : Option String) (rs : List String) (n : String) (h : n ∈ rs) :
      GateStep ⟨w, rs⟩ ⟨w, rs.erase n⟩
  | lock (n : String) : GateStep ⟨none, []⟩ ⟨some n, []⟩
  | unlock (n : String) (rs : List String) : GateStep ⟨some n, rs⟩ ⟨none, rs⟩

/-- Gate states reachable from the initial unlocked state by the
WithMaintenance transitions. -/
inductive GateReach : GateSt → Prop where
  | init : GateReach ⟨none, []⟩
  | step {s s' : GateSt} : GateReach s → GateStep s s' → GateReach s'

/-- Modelled from the spec and the repository's own validate test: the
external scheduler's standard-grammar parser, of which the source fixes
only that the expression "invalid" fails to parse while the concrete
5-field expressions used here parse. -/
def parseOkTest : String → Bool := fun s => s ≠ "invalid"

/-- Concrete job list for the duplicate-after-bad-schedule scenario: the
first job's active schedule does not parse, the last two names collide. -/
def jobsC7 : List Job :=
  [newJob "a" "invalid" false, newJob "b" "" false, newJob "b" "" false]

/-- Concrete manager whose two jobs both carry the empty name (AddFunc does
not validate names), a case-insensitive duplicate. -/
def cmC6 : Manager := mkManager [("", "", false), ("", "", false)]

/-- Concrete manager with a single disabled (empty-schedule) job, which Run
gives the fake id 0 * -1 = 0. -/
def cmC9 : Manager := mkManager [("f5", "", false)]

/-- C2: one pass through the duplicate-run guard: a name already in the
active set returns the skipped sentinel without invoking the wrapped
function and leaves the set unchanged; otherwise the wrapped function is
invoked, its outcome (normal return or propagating panic) passes through,
and the deferred delete leaves the set exactly as at entry, so the name is
never left in the set after exit; whether the wrapped function runs depends
only on the invocation's own name being active, so invocations with
different names never block each other. -/
theorem c2_skip_active_guard (active : List String) (name : String) (next : Outcome) :
    (name ∈ active →
      skipActiveGuard active name next = ⟨.ret (some .errSkipped), active, false⟩) ∧
    (name ∉ active →
      skipActiveGuard active name next = ⟨next, active, true⟩ ∧
      name ∉ (skipActiveGuard active name next).finalActive) ∧
    ((skipActiveGuard active name next).invoked = true ↔ name ∉ active) := by
  by_cases h : name ∈ active <;>
    simp [skipActiveGuard, h, List.erase_cons_head]

/-- Witness for c2_skip_active_guard: a second run of "a" is skipped with
the set untouched; a run of "b" proceeds (no blocking by "a") and even a
panic of the wrapped call leaves the set as at entry. -/
theorem c2_skip_active_guard_witness :
    skipActiveGuard ["a"] "a" (.ret none) = ⟨.ret (some .errSkipped), ["a"], false⟩ ∧
    skipActiveGuard ["a"] "b" .panicOut = ⟨.panicOut, ["a"], true⟩ := by
  refine ⟨(c2_skip_active_guard ["a"] "a" (.ret none)).1 (by decide), ?_⟩
  exact ((c2_skip_active_guard ["a"] "b" .panicOut).2.1 (by decide)).1

/-- C4: whenever updateState is called with an error matching the skipped
sentinel under errors.Is chain matching — the sentinel itself or any error
wrapping it — the stored phase is `skipped` and the stored error is nil,
for every requested phase; never phase `idle` with the sentinel payload. -/
theorem c4_skipped_sentinel (s : JobState) (ph : CronState) (e : GoError) (now : Int)
    (h : errorIs e .errSkipped = true) :
    (updateStateCore s ph (some e) now).state = .skipped ∧
    (updateStateCore s ph (some e) now).err = none := by
  simp [updateStateCore, optErrorIs, h]

/-- Witness for c4_skipped_sentinel: a business error wrapping the sentinel
is stored as phase skipped with nil error. -/
theorem c4_skipped_sentinel_witness :
    (updateStateCore ⟨.running, none, 5, 0⟩ .idle (some (.wrap "job f1" .errSkipped)) 9).state = .skipped ∧
    (updateStateCore ⟨.running, none, 5, 0⟩ .idle (some (.wrap "job f1" .errSkipped)) 9).err = none :=
  c4_skipped_sentinel ⟨.running, none, 5, 0⟩ .idle (.wrap "job f1" .errSkipped) 9 (by decide)

/-- C5: updateState stores the duration now - updatedAt exactly when the
previous phase is `running` and the requested phase is `idle` (updatedAt
being the instant the running phase was recorded, and now being no earlier
by clock monotonicity, the recorded duration is the elapsed time and is
nonnegative); every other call leaves the stored duration unchanged. -/
theorem c5_duration_rule (s : JobState) (ph : CronState) (e : Option GoError) (now : Int)
    (hmono : s.updatedAt ≤ now) :
    (s.state = .running ∧ ph = .idle →
      (updateStateCore s ph e now).duration = now - s.updatedAt ∧
      0 ≤ (updateStateCore s ph e now).duration) ∧
    (¬(s.state = .running ∧ ph = .idle) →
      (updateStateCore s ph e now).duration = s.duration) := by
  have hd : (updateStateCore s ph e now).duration =
      if s.state = .running ∧ ph = .idle then now - s.updatedAt else s.duration := by
    unfold updateStateCore
    by_cases hskip : optErrorIs e .errSkipped = true <;> simp [hskip]
  constructor
  · intro h
    rw [hd, if_pos h]
    exact ⟨rfl, by omega⟩
  · intro h
    rw [hd, if_neg h]

/-- Witness for c5_duration_rule: completing a run that entered `running`
at instant 3 and finishes at instant 10 records duration 7 ≥ 0, and a
skipped-exit call that does not request phase idle leaves it unchanged. -/
theorem c5_duration_rule_witness :
    (updateStateCore ⟨.running, none, 3, 42⟩ .idle none 10).duration = 10 - 3 ∧
    0 ≤ (updateStateCore ⟨.running, none, 3, 42⟩ .idle none 10).duration ∧
    (updateStateCore ⟨.skipped, none, 3, 42⟩ .idle none 10).duration = 42 := by
  have h1 := (c5_duration_rule ⟨.running, none, 3, 42⟩ .idle none 10 (by decide)).1 ⟨rfl, rfl⟩
  have h2 := (c5_duration_rule ⟨.skipped, none, 3, 42⟩ .idle none 10 (by decide)).2 (by simp)
  exact ⟨h1.1, h1.2, h2⟩

/-- C1 counterexample: task "f1" is in flight (its name is in the guard's
active set, its record reads `running` since instant 0). The second
invocation observes the skipped sentinel from the guard, but its own pair
of state updates — updateState(running, nil) at entry at instant 1, then
updateState(idle, ErrSkipped) at exit at instant 2 — leaves the record in
phase `skipped`, not `running`: the record does not continue to read
`running` until the first run completes, refuting the claim's
no-overwrite part. -/
theorem c1_counterexample :
    (skipActiveGuard ["f1"] "f1" (.ret none)).res = .ret (some .errSkipped) ∧
    (skipActiveGuard ["f1"] "f1" (.ret none)).invoked = false ∧
    (updateStateCore (updateStateCore ⟨.running, none, 0, 0⟩ .running none 1) .idle
        (some .errSkipped) 2).state ≠ .running ∧
    (updateStateCore (updateStateCore ⟨.running, none, 0, 0⟩ .running none 1) .idle
        (some .errSkipped) 2).state = .skipped := by
  decide

/-- C1 amended: for every task whose name is in the guard's active set (an
in-flight run, record reading `running`), a second invocation observes the
skipped sentinel and its wrapped function is not invoked; the second
invocation's entry update leaves the record reading `running`, but its
exit update overwrites the record to phase `skipped` with nil error, which
the record reads until the first run's own completion update. -/
theorem c1_second_invocation (active : List String) (n : String) (nxt : Outcome)
    (s : JobState) (t1 t2 : Int) (hn : n ∈ active) (_hs : s.state = .running) :
    (skipActiveGuard active n nxt).res = .ret (some .errSkipped) ∧
    (skipActiveGuard active n nxt).invoked = false ∧
    (updateStateCore s .running none t1).state = .running ∧
    (updateStateCore (updateStateCore s .running none t1) .idle (some .errSkipped) t2).state = .skipped ∧
    (updateStateCore (updateStateCore s .running none t1) .idle (some .errSkipped) t2).err = none := by
  refine ⟨?_, ?_, ?_, ?_, ?_⟩ <;>
    simp [skipActiveGuard, hn, updateStateCore, optErrorIs, errorIs]

/-- Witness for c1_second_invocation at task "f1" in flight since 0,
second invocation at instants 1 and 2. -/
theorem c1_second_invocation_witness :
    (skipActiveGuard ["f1"] "f1" (.ret none)).res = .ret (some .errSkipped) ∧
    (skipActiveGuard ["f1"] "f1" (.ret none)).invoked = false ∧
    (updateStateCore ⟨.running, none, 0, 0⟩ .running none 1).state = .running ∧
    (updateStateCore (updateStateCore ⟨.running, none, 0, 0⟩ .running none 1) .idle
        (some .errSkipped) 2).state = .skipped ∧
    (updateStateCore (updateStateCore ⟨.running, none, 0, 0⟩ .running none 1) .idle
        (some .errSkipped) 2).err = none :=
  c1_second_invocation ["f1"] "f1" (.ret none) ⟨.running, none, 0, 0⟩ 1 2 (by decide) rfl

/-- Invariant of the maintenance gate's RWMutex: in every reachable state,
either no maintenance task holds the exclusive lock or no non-maintenance
task holds a shared lock. -/
theorem gateReach_writer_or_no_readers (s : GateSt) (h : GateReach s) :
    s.writer = none ∨ s.readers = [] := by
  induction h with
  | init => exact Or.inl rfl
  | step hr hstep ih =>
    cases hstep with
    | rlock rs n => exact Or.inl rfl
    | runlock w rs n hn =>
      cases ih with
      | inl hw => exact Or.inl hw
      | inr hrs => exact absurd (hrs ▸ hn) (List.not_mem_nil n)
    | lock n => exact Or.inr rfl
    | unlock n rs => exact Or.inl rfl

/-- C3: in every reachable state of the maintenance gate, while a
maintenance task holds the exclusive lock — which is when its business
function executes — no other task holds the lock in any mode, so no other
business function (the exclusive holder is unique by construction, and the
shared-holder list is empty) executes concurrently; and a state with two
distinct non-maintenance tasks holding shared locks simultaneously is
reachable, so non-maintenance tasks may execute concurrently. -/
theorem c3_maintenance_gate :
    (∀ s : GateSt, GateReach s → ∀ n : String, s.writer = some n → s.readers = []) ∧
    (∃ s : GateSt, GateReach s ∧ s.writer = none ∧ s.readers = ["b", "a"]) := by
  constructor
  · intro s hs n hw
    cases gateReach_writer_or_no_readers s hs with
    | inl h => rw [hw] at h; cases h
    | inr h => exact h
  · refine ⟨⟨none, ["b", "a"]⟩, ?_, rfl, rfl⟩
    exact GateReach.step (GateReach.step GateReach.init (GateStep.rlock [] "a"))
      (GateStep.rlock ["a"] "b")

/-- Witness for c3_maintenance_gate: the state where maintenance task "m"
holds the exclusive lock is reachable, and the theorem yields that no
shared holder exists there. -/
theorem c3_maintenance_gate_witness : (⟨some "m", []⟩ : GateSt).readers = [] :=
  c3_maintenance_gate.1 ⟨some "m", []⟩
    (GateReach.step GateReach.init (GateStep.lock "m")) "m" rfl

/-- The composition loop of Run equals a right fold of application over the
registration list. -/
theorem composeMw_eq_foldr {α : Type} (ms : List (α → α)) (fn : α) :
    composeMw ms fn = ms.foldr (fun m g => m g) fn := by
  simp [composeMw, List.foldl_reverse]

/-- Trace of the instrumented chain: entries in registration order, then
the business function, then exits in reverse registration order. -/
theorem composeMw_trace (idxs : List Nat) (tr : List Ev) :
    composeMw (idxs.map traceMw) baseFn tr =
      tr ++ idxs.map Ev.enter ++ [Ev.base] ++ idxs.reverse.map Ev.exit := by
  induction idxs generalizing tr with
  | nil => simp [composeMw, baseFn]
  | cons i rest ih =>
    rw [composeMw_eq_foldr]
    simp only [List.map_cons, List.foldr_cons]
    rw [← composeMw_eq_foldr]
    show traceMw i (composeMw (rest.map traceMw) baseFn) tr = _
    rw [traceMw]
    simp [ih, List.append_assoc]

/-- C8: the middleware units registered via Use are applied by folding
right-to-left over the registration list (the Run loop is that right
fold, and the head unit is the outermost application), and on every
invocation of the instrumented chain the first-added unit runs first on
entry and last on exit with the business function innermost. -/
theorem c8_first_added_outermost :
    (∀ (α : Type) (ms : List (α → α)) (m0 : α → α) (fn : α),
      composeMw ms fn = ms.foldr (fun m g => m g) fn ∧
      composeMw (m0 :: ms) fn = m0 (composeMw ms fn)) ∧
    (∀ idxs : List Nat,
      composeMw (idxs.map traceMw) baseFn [] =
        idxs.map Ev.enter ++ [Ev.base] ++ idxs.reverse.map Ev.exit) := by
  constructor
  · intro α ms m0 fn
    refine ⟨composeMw_eq_foldr ms fn, ?_⟩
    rw [composeMw_eq_foldr, composeMw_eq_foldr]
    rfl
  · intro idxs
    simpa using composeMw_trace idxs []

/-- Processing a prefix of jobs with pairwise distinct lowercased names,
none already seen, and only valid active schedules just accumulates the
lowercased names. -/
theorem validateJobsGo_clean_front (parseOk : String → Bool) (pre rest : List Job) :
    ∀ names : List String,
    (∀ x ∈ pre, strLower x.name ∉ names) →
    (pre.map (fun x => strLower x.name)).Nodup →
    (∀ x ∈ pre, scheduleIsActive x.schedule = true → parseOk x.schedule = true) →
    validateJobsGo parseOk (pre ++ rest) names =
      validateJobsGo parseOk rest ((pre.map (fun x => strLower x.name)).reverse ++ names) := by
  induction pre with
  | nil => intro names _ _ _; simp
  | cons p pre' ih =>
    intro names h1 h2 h3
    have hp : strLower p.name ∉ names := h1 p (List.mem_cons_self p pre')
    have hsched : (scheduleIsActive p.schedule && !parseOk p.schedule) = false := by
      cases hb : scheduleIsActive p.schedule with
      | false => simp
      | true => simp [h3 p (List.mem_cons_self p pre') hb]
    simp only [List.cons_append, validateJobsGo, if_neg hp]
    rw [if_neg (by simp [hsched])]
    rw [List.map_cons, List.nodup_cons] at h2
    have hhead : strLower p.name ∉ pre'.map (fun x => strLower x.name) := h2.1
    have h1' : ∀ x ∈ pre', strLower x.name ∉ strLower p.name :: names := by
      intro x hx
      simp only [List.mem_cons, not_or]
      constructor
      · intro hcontra
        exact hhead (hcontra ▸ List.mem_map_of_mem (fun x => strLower x.name) hx)
      · exact h1 x (List.mem_cons_of_mem p hx)
    have h3' : ∀ x ∈ pre', scheduleIsActive x.schedule = true → parseOk x.schedule = true :=
      fun x hx => h3 x (List.mem_cons_of_mem p hx)
    have hr : (List.map (fun x => strLower x.name) (p :: pre')).reverse ++ names =
        (List.map (fun x => strLower x.name) pre').reverse ++ (strLower p.name :: names) := by
      simp
    rw [hr]
    exact ih (strLower p.name :: names) h1' h2.2 h3'

/-- C7 amended: for every job list of the form pre ++ j :: post where j is
the second occurrence of the first case-insensitive duplicate pair (the
prefix has pairwise distinct lowercased names) and — the amendment — every
job in the prefix has a valid (parseable or inactive) schedule, validation
fails with the duplicate-name error naming j.name in its original casing. -/
theorem c7_first_duplicate (parseOk : String → Bool) (pre post : List Job) (j : Job)
    (h2 : (pre.map (fun x => strLower x.name)).Nodup)
    (h3 : ∀ x ∈ pre, scheduleIsActive x.schedule = true → parseOk x.schedule = true)
    (h4 : (strLower j.name) ∈ pre.map (fun x => strLower x.name)) :
    validateJobs parseOk (pre ++ j :: post) = (j.name, some .errDuplicate) := by
  unfold validateJobs
  rw [validateJobsGo_clean_front parseOk pre (j :: post) [] (by simp) h2 h3]
  have hmem : (strLower j.name) ∈ (pre.map (fun x => strLower x.name)).reverse ++ [] := by
    simpa using h4
  simp only [validateJobsGo, if_pos hmem]

/-- Witness for c7_first_duplicate: registering "f1" then "F1" fails with
the duplicate error naming "F1", the second occurrence's casing. -/
theorem c7_first_duplicate_witness :
    validateJobs parseOkTest [newJob "f1" "" false, newJob "F1" "" false] =
      ("F1", some .errDuplicate) := by
  have h := c7_first_duplicate parseOkTest [newJob "f1" "" false] [] (newJob "F1" "" false)
    (by decide) (by decide) (by decide)
  simpa using h

/-- C7 counterexample: jobsC7 contains the case-insensitively equal pair
"b", "b", yet validation fails with the parse error of the earlier job
"a" whose active schedule "invalid" does not parse — not with the
duplicate-name error the claim promises for every such list. -/
theorem c7_counterexample :
    eqFold "b" "b" = true ∧
    validateJobs parseOkTest jobsC7 = ("a", some (.parseErr "invalid")) ∧
    (validateJobs parseOkTest jobsC7).2 ≠ some .errDuplicate := by
  decide

/-- Run on a manager whose validation reports a non-empty offending name
returns the wrapped validation error and leaves the manager untouched. -/
theorem runManager_invalid (parseOk : String → Bool) (now : Int) (cm : Manager)
    (h : (validateJobs parseOk cm.jobs).1 ≠ "") :
    runManager parseOk now cm = (cm, some (.wrap (validateJobs parseOk cm.jobs).1
      ((validateJobs parseOk cm.jobs).2.getD .errDuplicate))) := by
  simp only [runManager, if_pos h]

/-- C6 amended: for every manager whose job list fails validation with a
non-empty reported offending name — which covers every duplicate pair and
every bad schedule among jobs with non-empty names — Run returns a non-nil
error, registers nothing with the external scheduler and does not start
the cron process (the manager, its scheduler state included, is exactly as
before the call). The amendment excludes the empty-name corner: Run tests
validation failure by a non-empty offending name. -/
theorem c6_invalid_no_activation (parseOk : String → Bool) (now : Int) (cm : Manager)
    (h : (validateJobs parseOk cm.jobs).1 ≠ "") :
    (runManager parseOk now cm).2.isSome = true ∧
    (runManager parseOk now cm).1 = cm ∧
    (runManager parseOk now cm).1.cron.entries = cm.cron.entries ∧
    (runManager parseOk now cm).1.cron.started = cm.cron.started := by
  rw [runManager_invalid parseOk now cm h]
  exact ⟨rfl, rfl, rfl, rfl⟩

/-- Witness for c6_invalid_no_activation: the duplicate pair "f1"/"F1"
makes Run fail, register nothing and not start. -/
theorem c6_invalid_no_activation_witness :
    (runManager parseOkTest 0 (mkManager [("f1", "* * * * *", false), ("F1", "* * * * *", false)])).2.isSome = true ∧
    (runManager parseOkTest 0 (mkManager [("f1", "* * * * *", false), ("F1", "* * * * *", false)])).1 =
      mkManager [("f1", "* * * * *", false), ("F1", "* * * * *", false)] ∧
    (runManager parseOkTest 0 (mkManager [("f1", "* * * * *", false), ("F1", "* * * * *", false)])).1.cron.entries =
      (mkManager [("f1", "* * * * *", false), ("F1", "* * * * *", false)]).cron.entries ∧
    (runManager parseOkTest 0 (mkManager [("f1", "* * * * *", false), ("F1", "* * * * *", false)])).1.cron.started =
      (mkManager [("f1", "* * * * *", false), ("F1", "* * * * *", false)]).cron.started :=
  c6_invalid_no_activation parseOkTest 0
    (mkManager [("f1", "* * * * *", false), ("F1", "* * * * *", false)]) (by decide)

/-- C6 counterexample: two jobs both named "" are a case-insensitive
duplicate and validation fails with ErrDuplicate, yet Run — which tests
failure by a non-empty offending name — returns nil and starts the cron
process, violating all-or-nothing activation as claimed for every
failing job list. -/
theorem c6_counterexample :
    (validateJobs parseOkTest cmC6.jobs).2 = some .errDuplicate ∧
    (runManager parseOkTest 0 cmC6).2 = none ∧
    (runManager parseOkTest 0 cmC6).1.cron.started = true := by
  decide

/-- Pointwise description of a successful registration loop: every job
keeps its name, schedule and maintenance flag and gets its pipeline
closure bound, and an inactive-schedule job at overall index idx + k gets
the fake id (idx + k) * -1 and the disabled state update. -/
theorem runRegister_success (parseOk : String → Bool) (now : Int) :
    ∀ (jobs : List Job) (idx : Nat) (c : CronSched),
      (runRegister parseOk now jobs idx c).2.2 = none →
      ∀ (k : Nat) (j : Job), jobs.get? k = some j →
        ∃ j2, (runRegister parseOk now jobs idx c).1.get? k = some j2 ∧
          j2.name = j.name ∧ j2.schedule = j.schedule ∧
          j2.isMaintenance = j.isMaintenance ∧ j2.cronFn = some (idx + k) ∧
          (scheduleIsActive j.schedule = false →
            j2.id = -((idx + k : Nat) : Int) ∧
            j2.last = updateStateCore j.last .disabled none now) := by
  intro jobs
  induction jobs with
  | nil => intro idx c _ k j hj; simp at hj
  | cons p rest ih =>
    intro idx c herr k j hj
    by_cases ha : scheduleIsActive p.schedule = true
    · by_cases hpp : parseOk p.schedule = true
      · simp only [runRegister, if_pos ha, if_pos hpp] at herr ⊢
        cases k with
        | zero =>
          obtain rfl : p = j := by simpa using hj
          refine ⟨_, rfl, rfl, rfl, rfl, by simp, ?_⟩
          intro hfalse
          rw [ha] at hfalse
          cases hfalse
        | succ k' =>
          have hj' : rest.get? k' = some j := by simpa using hj
          obtain ⟨j2, hg, hn, hs, hm, hc, hid⟩ :=
            ih (idx + 1) (cronAddFunc c).2 herr k' j hj'
          refine ⟨j2, by simpa using hg, hn, hs, hm, ?_, ?_⟩
          · rw [hc]; congr 1; omega
          · intro hf
            obtain ⟨hi1, hi2⟩ := hid hf
            refine ⟨?_, hi2⟩
            rw [hi1]
            congr 1
            omega
      · simp only [runRegister, if_pos ha, if_neg hpp] at herr
        simp at herr
    · have ha' : scheduleIsActive p.schedule = false := by simpa using ha
      simp only [runRegister, if_neg ha] at herr ⊢
      cases k with
      | zero =>
        obtain rfl : p = j := by simpa using hj
        refine ⟨_, rfl, rfl, rfl, rfl, by simp, ?_⟩
        intro _
        exact ⟨by simp, rfl⟩
      | succ k' =>
        have hj' : rest.get? k' = some j := by simpa using hj
        obtain ⟨j2, hg, hn, hs, hm, hc, hid⟩ := ih (idx + 1) c herr k' j hj'
        refine ⟨j2, by simpa using hg, hn, hs, hm, ?_, ?_⟩
        · rw [hc]; congr 1; omega
        · intro hf
          obtain ⟨hi1, hi2⟩ := hid hf
          refine ⟨?_, hi2⟩
          rw [hi1]
          congr 1
          omega

/-- The registration loop only adds scheduler entries whose identifiers
are at least 1 (the scheduler hands out successive positive ids). -/
theorem runRegister_entry_ids (parseOk : String → Bool) (now : Int) :
    ∀ (jobs : List Job) (idx : Nat) (c : CronSched),
      (∀ e ∈ c.entries, 1 ≤ e.id) → 1 ≤ c.nextID →
      ∀ e ∈ (runRegister parseOk now jobs idx c).2.1.entries, 1 ≤ e.id := by
  intro jobs
  induction jobs with
  | nil =>
    intro idx c hc _ e he
    simp only [runRegister] at he
    exact hc e he
  | cons p rest ih =>
    intro idx c hc hn e he
    by_cases ha : scheduleIsActive p.schedule = true
    · by_cases hpp : parseOk p.schedule = true
      · simp only [runRegister, if_pos ha, if_pos hpp] at he
        refine ih (idx + 1) (cronAddFunc c).2 ?_ ?_ e he
        · intro e' he'
          simp only [cronAddFunc, List.mem_append, List.mem_singleton] at he'
          cases he' with
          | inl h => exact hc e' h
          | inr h => rw [h]; exact hn
        · simp only [cronAddFunc]
          omega
      · simp only [runRegister, if_pos ha, if_neg hpp] at he
        exact hc e he
    · simp only [runRegister, if_neg ha] at he
      exact ih (idx + 1) c hc hn e he

/-- A successful Run means validation reported no offending name, the
registration loop succeeded, and the resulting manager carries the
registered jobs and the started scheduler. -/
theorem runManager_success (parseOk : String → Bool) (now : Int) (cm : Manager)
    (h : (runManager parseOk now cm).2 = none) :
    (validateJobs parseOk cm.jobs).1 = "" ∧
    (runRegister parseOk now cm.jobs 0 cm.cron).2.2 = none ∧
    (runManager parseOk now cm).1 =
      ⟨(runRegister parseOk now cm.jobs 0 cm.cron).1,
       ⟨(runRegister parseOk now cm.jobs 0 cm.cron).2.1.nextID,
        (runRegister parseOk now cm.jobs 0 cm.cron).2.1.entries, true⟩⟩ := by
  by_cases hv : (validateJobs parseOk cm.jobs).1 = ""
  · have hcond : ¬((validateJobs parseOk cm.jobs).1 ≠ "") := by simpa using hv
    simp only [runManager, if_neg hcond] at h ⊢
    cases hr : (runRegister parseOk now cm.jobs 0 cm.cron).2.2 with
    | some e => rw [hr] at h; simp at h
    | none => exact ⟨hv, rfl, rfl⟩
  · exfalso
    rw [runManager_invalid parseOk now cm hv] at h
    simp at h

/-- A job whose id matches no scheduler entry snapshots with zero previous
and next fire instants. -/
theorem stateSnapshot_no_entry (cm : Manager) (k : Nat) (j2 : Job)
    (hj : cm.jobs.get? k = some j2)
    (hfind : cm.cron.entries.find? (fun e => e.id == j2.id) = none) :
    (stateSnapshot cm).get? k = some ⟨j2.id, j2.name, j2.schedule, j2.isMaintenance,
      j2.last.state, j2.last.err, j2.last.duration, j2.last.updatedAt, 0, 0⟩ := by
  simp only [stateSnapshot, List.get?_map, hj, Option.map_some']
  rw [hfind]

/-- C9 amended: after a successful Run, a task registered at index k with
an empty or "disabled" schedule is not registered with the external
scheduler, has phase `disabled`, carries the synthetic non-positive
identifier k * -1 — which is 0, not negative, for the first-registered
task, yet cannot collide with the scheduler's identifiers, all of which
are at least 1 — keeps its bound pipeline closure so the manual trigger
can invoke it, and its state snapshot reports zero previous and next run
instants. -/
theorem c9_disabled_task (parseOk : String → Bool) (now : Int) (cm : Manager) (k : Nat) (j : Job)
    (hrun : (runManager parseOk now cm).2 = none)
    (hj : cm.jobs.get? k = some j)
    (hin : scheduleIsActive j.schedule = false)
    (hids : ∀ e ∈ cm.cron.entries, 1 ≤ e.id)
    (hnext : 1 ≤ cm.cron.nextID) :
    ((runManager parseOk now cm).1.jobs.get? k).map Job.id = some (-(k : Int)) ∧
    -(k : Int) ≤ 0 ∧
    ((runManager parseOk now cm).1.jobs.get? k).map (fun x => x.last.state) =
      some CronState.disabled ∧
    ((runManager parseOk now cm).1.jobs.get? k).map Job.cronFn = some (some k) ∧
    (∀ e ∈ (runManager parseOk now cm).1.cron.entries, 1 ≤ e.id) ∧
    ((stateSnapshot (runManager parseOk now cm).1).get? k).map
      (fun r => (r.lastRun, r.nextRun, r.lastState)) = some (0, 0, CronState.disabled) := by
  obtain ⟨hv, herr, hres⟩ := runManager_success parseOk now cm hrun
  obtain ⟨j2, hg, hn, hs, hm, hc, hid⟩ :=
    runRegister_success parseOk now cm.jobs 0 cm.cron herr k j hj
  obtain ⟨hi1, hi2⟩ := hid hin
  have hidsR : ∀ e ∈ (runRegister parseOk now cm.jobs 0 cm.cron).2.1.entries, 1 ≤ e.id :=
    runRegister_entry_ids parseOk now cm.jobs 0 cm.cron hids hnext
  have hjobs : (runManager parseOk now cm).1.jobs =
      (runRegister parseOk now cm.jobs 0 cm.cron).1 := by rw [hres]
  have hent : (runManager parseOk now cm).1.cron.entries =
      (runRegister parseOk now cm.jobs 0 cm.cron).2.1.entries := by rw [hres]
  have hstate : j2.last.state = .disabled := by
    rw [hi2]
    simp [updateStateCore, optErrorIs]
  refine ⟨?_, by omega, ?_, ?_, ?_, ?_⟩
  · rw [hjobs, hg]
    simp only [Option.map_some']
    rw [hi1]
    simp
  · rw [hjobs, hg]
    simp [hstate]
  · rw [hjobs, hg]
    simp [hc]
  · intro e he
    rw [hent] at he
    exact hidsR e he
  · have hj' : (runManager parseOk now cm).1.jobs.get? k = some j2 := by
      rw [hjobs]; exact hg
    have hfind : (runManager parseOk now cm).1.cron.entries.find?
        (fun e => e.id == j2.id) = none := by
      rw [List.find?_eq_none]
      intro e he
      have h1e := hidsR e (hent ▸ he)
      simp only [beq_iff_eq]
      intro hcontra
      rw [hi1] at hcontra
      omega
    rw [stateSnapshot_no_entry _ k j2 hj' hfind]
    simp [hstate]

/-- Witness for c9_disabled_task at the concrete manager with the single
disabled job "f5" (index 0): id 0, phase disabled, bound closure, zero
snapshot run times. -/
theorem c9_disabled_task_witness :
    ((runManager parseOkTest 0 cmC9).1.jobs.get? 0).map Job.id = some (-((0 : Nat) : Int)) ∧
    -((0 : Nat) : Int) ≤ 0 ∧
    ((runManager parseOkTest 0 cmC9).1.jobs.get? 0).map (fun x => x.last.state) =
      some CronState.disabled ∧
    ((runManager parseOkTest 0 cmC9).1.jobs.get? 0).map Job.cronFn = some (some 0) ∧
    ((stateSnapshot (runManager parseOkTest 0 cmC9).1).get? 0).map
      (fun r => (r.lastRun, r.nextRun, r.lastState)) = some (0, 0, CronState.disabled) := by
  have h := c9_disabled_task parseOkTest 0 cmC9 0 (newJob "f5" "" false)
    (by decide) (by decide) (by decide) (by decide) (by decide)
  exact ⟨h.1, h.2.1, h.2.2.1, h.2.2.2.1, h.2.2.2.2.2⟩

/-- C9 counterexample: Run succeeds on the manager whose only job "f5" is
disabled, and assigns it the identifier 0 * -1 = 0, which is not a
negative identifier as the claim states. -/
theorem c9_counterexample :
    (runManager parseOkTest 0 cmC9).2 = none ∧
    (runManager parseOkTest 0 cmC9).1.jobs.map Job.id = [0] ∧
    ¬((0 : Int) < 0) := by
  decide

/-- ManualRun resolves to the first job in registration order whose name
matches case-insensitively and invokes its stored cronFn. -/
theorem manualRunGo_first (id : String) (pre post : List Job) (j : Job)
    (hpre : ∀ x ∈ pre, eqFold x.name id = false) (hj : eqFold j.name id = true) :
    manualRunGo id (pre ++ j :: post) = .invoke j.cronFn := by
  induction pre with
  | nil => simp [manualRunGo, hj]
  | cons p pre' ih =>
    have hp := hpre p (List.mem_cons_self p pre')
    simp only [List.cons_append, manualRunGo]
    rw [if_neg (by simp [hp])]
    exact ih fun x hx => hpre x (List.mem_cons_of_mem p hx)

/-- When every job's cronFn is still nil and some name matches, ManualRun
reaches a nil function. -/
theorem manualRunGo_all_nil (id : String) :
    ∀ jobs : List Job, (∀ x ∈ jobs, x.cronFn = none) →
      (∃ x ∈ jobs, eqFold x.name id = true) →
      manualRunGo id jobs = .invoke none := by
  intro jobs
  induction jobs with
  | nil => intro _ hex; simp at hex
  | cons p rest ih =>
    intro hall hex
    by_cases hp : eqFold p.name id = true
    · simp only [manualRunGo]
      rw [if_pos hp, hall p (List.mem_cons_self p rest)]
    · simp only [manualRunGo]
      rw [if_neg hp]
      apply ih fun x hx => hall x (List.mem_cons_of_mem p hx)
      obtain ⟨x, hx, hfold⟩ := hex
      cases List.mem_cons.mp hx with
      | inl h => exact absurd (h ▸ hfold) hp
      | inr h => exact ⟨x, h, hfold⟩

/-- C10: ManualRun invokes the stored cronFn of the first job in
registration order whose name matches case-insensitively; on a manager on
which Run has not been called, every cronFn is still nil, so a matching
ManualRun invokes a nil function (a runtime fault) instead of returning an
error, and the same holds after Run returned a validation error, which
leaves the manager untouched — the operation is total only after a
successful Run. -/
theorem c10_manual_nil_before_run (parseOk : String → Bool) (now : Int)
    (regs : List (String × String × Bool)) (id : String)
    (hmatch : ∃ x ∈ (mkManager regs).jobs, eqFold x.name id = true) :
    manualRun (mkManager regs) id = .invoke none ∧
    ((validateJobs parseOk (mkManager regs).jobs).1 ≠ "" →
      manualRun (runManager parseOk now (mkManager regs)).1 id = .invoke none) ∧
    (∀ (cm : Manager) (pre post : List Job) (j : Job), cm.jobs = pre ++ j :: post →
      (∀ x ∈ pre, eqFold x.name id = false) → eqFold j.name id = true →
      manualRun cm id = .invoke j.cronFn) := by
  have hnone : ∀ x ∈ (mkManager regs).jobs, x.cronFn = none := by
    intro x hx
    simp only [mkManager] at hx
    obtain ⟨r, _, rfl⟩ := List.mem_map.mp hx
    rfl
  have h1 : manualRun (mkManager regs) id = .invoke none :=
    manualRunGo_all_nil id _ hnone hmatch
  refine ⟨h1, ?_, ?_⟩
  · intro hv
    rw [runManager_invalid parseOk now (mkManager regs) hv]
    exact h1
  · intro cm pre post j hsplit hpre hj
    unfold manualRun
    rw [hsplit]
    exact manualRunGo_first id pre post j hpre hj

/-- Witness for c10_manual_nil_before_run: before Run, manually triggering
"F1" on the manager that registered "f1" calls a nil function. -/
theorem c10_manual_nil_before_run_witness :
    manualRun (mkManager [("f1", "* * * * *", false)]) "F1" = .invoke none :=
  (c10_manual_nil_before_run parseOkTest 0 [("f1", "* * * * *", false)] "F1" (by decide)).1

end VmkCron
